import Mathlib

/-!
Shallow embedding of the ParetoNMF topic-count estimator from
src/paretonmf.py, together with theorems checking the specification's
claims about it.

Modelling conventions:
* a document-term matrix is a list of rows (documents), each a list of
  rational entries;
* Python ints are Int (or ℕ where the source value is a count), floats
  are ℚ, and int(x) is truncation toward zero;
* the sklearn NMF factorization together with the per-document argmax
  topic assignment and the Counter aggregation is an external black box
  (spec section 1 puts solver internals out of scope); it is modelled by
  an oracle that, for a matrix and a topic count, yields the fitted
  model value and the topic-size distribution (the Counter values);
* Python exceptions are explicit result constructors: falling off the
  end of a function is noneVal (Python returns None), reading the never
  assigned self.previous_nmf is attrError (AttributeError), and the
  division by a zero row count in the auto estimators is zeroDivError
  (ZeroDivisionError).
-/

namespace ParetoNMF

/-- A document-term matrix: rows are documents, columns are terms. -/
abbrev Mat : Type := List (List ℚ)

/-- Python int() applied to a rational: truncation toward zero. -/
def intTrunc (q : ℚ) : Int := if 0 ≤ q then ⌊q⌋ else -⌊-q⌋

/-- Running cumulative sums of a list, as np.cumsum. -/
def cumsum : List ℕ → List ℕ
  | [] => []
  | x :: xs => x :: (cumsum xs).map (x + ·)

/-- Descending sort, as np.sort(...)[::-1] in _stopping_condition and
sorted(..., reverse=True) in _pareto_corpus_content. -/
def sortDesc (l : List ℕ) : List ℕ := (l.insertionSort (· ≤ ·)).reverse

/-- The value np.sum(cum_sum < self.rich_content) computed by
ParetoNMF._stopping_condition: how many entries of the cumulative sum of
the descending-sorted topic sizes lie strictly below rich_content. -/
def topicsWithRichContent (counts : List ℕ) (rich_content : Int) : ℕ :=
  (cumsum (sortDesc counts)).countP (fun (c : ℕ) => decide ((c : Int) < rich_content))

/-- ParetoNMF._stopping_condition as a pure function of the topic-size
distribution (the Counter values), self.rich_content and the incoming
self.rich_topics.  Returns the boolean result together with the value of
self.rich_topics after the call: the source leaves self.rich_topics
untouched on the stable branch and overwrites it with
topics_with_rich_content on the unstable branch. -/
def stoppingCondition (counts : List ℕ) (rich_content rich_topics : Int) : Bool × Int :=
  let t := topicsWithRichContent counts rich_content
  if (t : Int) = rich_topics then (true, rich_topics) else (false, (t : Int))

/-- Stated from the claim's words: the number of leading topics, after
sorting the counts descending, whose running cumulative sum is strictly
less than rich_content. -/
def leadingRichCount (counts : List ℕ) (rich_content : Int) : ℕ :=
  ((cumsum (sortDesc counts)).takeWhile
    (fun (c : ℕ) => decide ((c : Int) < rich_content))).length

/-- Tagged variant for the string-sentinel configuration values of the
source: either the literal string 'auto' or an explicit value. -/
inductive Setting (α : Type) where
  | auto : Setting α
  | val (x : α) : Setting α
deriving DecidableEq

/-- The numeric value of a setting; evaluate only reads it after the auto
sentinel has been resolved, so the default is never consulted. -/
def settingValue {α : Type} (s : Setting α) (d : α) : α :=
  match s with
  | Setting.auto => d
  | Setting.val x => x

variable {α : Type}

/-- The instance attributes of a ParetoNMF object that the search reads or
writes: the configuration (noise_pct, step, start, max_steps), the running
rich-topics baseline, and the references to the current and previous
factorization results.  The sklearn NMF hyperparameters are passed through
unchanged to the black-box factorization and are not tracked; the derived
diagnostic attributes corpus_count, rich_content and noise_content are
functions of the matrix and the resolved noise fraction (richContentOf). -/
structure State (α : Type) where
  noise_pct : Setting ℚ
  step : Setting ℕ
  start : ℕ
  max_steps : ℕ
  rich_topics : Int
  previous_nmf : Option α
  nmf : Option α
  topic_count : Option ℕ
deriving DecidableEq

/-- ParetoNMF.__init__: stores the configuration, sets self.rich_topics = 0
and leaves self.previous_nmf, self.nmf and self.topic_count unassigned
(modelled as none). -/
def init (noise_pct : Setting ℚ) (step : Setting ℕ) (start max_steps : ℕ) :
    State α :=
  { noise_pct := noise_pct, step := step, start := start, max_steps := max_steps,
    rich_topics := 0, previous_nmf := none, nmf := none, topic_count := none }

/-- The per-document token count of _pareto_corpus_content: the number of
strictly positive entries of a row (np.sum(sparse_matrix > 0, axis=1)). -/
def tokenCount (row : List ℚ) : ℕ := row.countP (fun (x : ℚ) => decide (0 < x))

/-- ParetoNMF._pareto_corpus_content as a function from the matrix and
n_percent to the stored noise fraction.  The source line
np.unique(sparse_matrix)[0] wraps the sparse-matrix object into a
one-element object array and indexes it back out, so it is the identity
on the matrix.  When the matrix has no rows the final division
float(majority_docs) / total_documents raises ZeroDivisionError,
modelled by none. -/
def paretoCorpusContent (m : Mat) (n_percent : ℚ) : Option ℚ :=
  let total_documents := m.length
  let token_count := m.map tokenCount
  let sorted_token_count := sortDesc token_count
  let total_tokens := token_count.sum
  let majority_information := intTrunc ((total_tokens : ℚ) * n_percent)
  let majority_docs :=
    (cumsum sorted_token_count).countP
      (fun (c : ℕ) => decide ((c : Int) < majority_information))
  if total_documents = 0 then none
  else some (1 - (majority_docs : ℚ) / (total_documents : ℚ))

/-- Stated from the claim's words: the number of leading documents, after
sorting the per-document nonzero-term counts descending, whose cumulative
token count is strictly less than the floor of total_tokens times
n_percent. -/
def specMajorityDocs (m : Mat) (n_percent : ℚ) : ℕ :=
  let counts := m.map (fun row => row.countP (fun (x : ℚ) => decide (x ≠ 0)))
  ((cumsum (sortDesc counts)).takeWhile
    (fun (c : ℕ) => decide ((c : Int) < ⌊(counts.sum : ℚ) * n_percent⌋))).length

/-- ParetoNMF._determine_auto_step_size:
int(round(float(matrix.shape[1]) / matrix.shape[0])), clamped up to 1 when
the rounded ratio is 0.  Python round() rounds half away from zero, which
for the nonnegative ratio is the floor of the ratio plus 1/2.  A matrix
with no rows makes the division raise ZeroDivisionError (none). -/
def determineAutoStepSize (m : Mat) : Option ℕ :=
  match m with
  | [] => none
  | r :: rest =>
    let rows := (r :: rest).length
    let cols := r.length
    let s := (⌊(cols : ℚ) / (rows : ℚ) + 1 / 2⌋).toNat
    some (if s = 0 then 1 else s)

/-- The rich-content threshold computed once per evaluate call:
self.rich_content = int(self.corpus_count * (1 - self.noise_pct)). -/
def richContentOf (m : Mat) (noise : ℚ) : Int :=
  intTrunc ((m.length : ℚ) * (1 - noise))

/-- np.arange(start, stop, step) on naturals: the values start + i * step
strictly below stop (for positive step the length is the rounded-up
quotient of stop - start by step). -/
def arange (start stop step : ℕ) : List ℕ :=
  (List.range ((stop - start + step - 1) / step)).map (fun i => start + i * step)

/-- The topic_array of evaluate:
np.arange(self.start, self.max_steps * self.step + self.start, self.step). -/
def topicList (start max_steps step : ℕ) : List ℕ :=
  arange start (max_steps * step + start) step

/-- Result of a call to ParetoNMF.evaluate: a returned topic count, the
implicit None return when the loop exhausts the topic array, or one of
the two exceptions the source can raise (AttributeError from reading the
never-assigned self.previous_nmf, ZeroDivisionError from the auto
estimators on a matrix with no rows). -/
inductive Outcome (α : Type) where
  | retVal (topic_count : ℕ) : Outcome α
  | noneVal : Outcome α
  | attrError : Outcome α
  | zeroDivError : Outcome α
deriving DecidableEq

/-- The for-loop of ParetoNMF.evaluate over the remaining topic counts.
Each iteration fits NMF at the current topic count (the oracle yields
the fitted model together with the Counter topic-size distribution of the
per-document argmax assignments), stores the fit in self.nmf, runs
_stopping_condition, and either finishes — backing off one step,
refitting at the smaller count (that fit is discarded by the source),
restoring self.nmf := self.previous_nmf, which raises AttributeError
when self.previous_nmf was never assigned — or records the current fit
in self.previous_nmf and continues.  Falling off the end of the list is
Python's implicit return None. -/
def evalLoop (oracle : ℕ → α × List ℕ) (rich_content : Int) (step : ℕ) :
    List ℕ → State α → Outcome α × State α
  | [], s => (Outcome.noneVal, s)
  | tc :: rest, s =>
    let w := (oracle tc).1
    let res := stoppingCondition (oracle tc).2 rich_content s.rich_topics
    let s1 : State α :=
      { s with topic_count := some tc, nmf := some w, rich_topics := res.2 }
    if res.1 then
      match s1.previous_nmf with
      | some p =>
        (Outcome.retVal (tc - step),
          { s1 with topic_count := some (tc - step), nmf := some p })
      | none => (Outcome.attrError, { s1 with topic_count := some (tc - step) })
    else
      evalLoop oracle rich_content step rest { s1 with previous_nmf := some w }

/-- The noise_pct == 'auto' check at the top of evaluate: when the sentinel
is set, _pareto_corpus_content(matrix, .8) overwrites self.noise_pct with
the estimated fraction; its ZeroDivisionError aborts evaluate (none). -/
def resolveNoise (s : State α) (m : Mat) : Option (State α) :=
  match s.noise_pct with
  | Setting.auto =>
      (paretoCorpusContent m (4 / 5)).map
        (fun v => { s with noise_pct := Setting.val v })
  | Setting.val _ => some s

/-- The step == 'auto' check of evaluate: when the sentinel is set,
_determine_auto_step_size(matrix) overwrites self.step. -/
def resolveStep (s : State α) (m : Mat) : Option (State α) :=
  match s.step with
  | Setting.auto =>
      (determineAutoStepSize m).map (fun v => { s with step := Setting.val v })
  | Setting.val _ => some s

/-- ParetoNMF.evaluate: resolve the auto sentinels, compute the
rich-content threshold, and run the search loop over the topic array.
The oracle packages the external NMF factorization at a given topic
count together with the derived topic-size distribution. -/
def evaluate (oracle : Mat → ℕ → α × List ℕ) (s : State α) (m : Mat) :
    Outcome α × State α :=
  match resolveNoise s m with
  | none => (Outcome.zeroDivError, s)
  | some s1 =>
    match resolveStep s1 m with
    | none => (Outcome.zeroDivError, s1)
    | some s2 =>
      let noise := settingValue s2.noise_pct 0
      let step := settingValue s2.step 0
      let rich_content := richContentOf m noise
      evalLoop (oracle m) rich_content step
        (topicList s2.start s2.max_steps step) s2

/-- The topics_with_rich_content value produced at loop iteration k (as a
Python int), for a loop running over the topic counts tcs. -/
def twrcAt (oracle : ℕ → α × List ℕ) (rc : Int) (tcs : List ℕ) (k : ℕ) : Int :=
  ((topicsWithRichContent (oracle (tcs.getD k 0)).2 rc : ℕ) : Int)

/-- The value of self.rich_topics entering loop iteration k, assuming every
iteration before k took the unstable branch: the initial baseline for
k = 0, and the topics_with_rich_content of iteration k - 1 afterwards. -/
def richAfter (oracle : ℕ → α × List ℕ) (rc : Int) (tcs : List ℕ) (i : Int) :
    ℕ → Int
  | 0 => i
  | k + 1 => twrcAt oracle rc tcs k

/-- A concrete oracle whose topic-size distribution is the same [3, 4] at
every topic count, with the fitted model recorded as the topic count. -/
def oracleFixed : Mat → ℕ → ℕ × List ℕ := fun _ tc => (tc, [3, 4])

/-- A concrete oracle whose topic-size distribution is tc singleton topics
at topic count tc, so topics_with_rich_content changes every iteration. -/
def oracleGrid : Mat → ℕ → ℕ × List ℕ := fun _ tc => (tc, List.replicate tc 1)

/-- A concrete matrix of d one-term documents. -/
def matOnes (d : ℕ) : Mat := List.replicate d [(1 : ℚ)]

/-- A concrete fresh estimator state: explicit noise 0, step 1, start 2,
max_steps 1. -/
def s9 : State ℕ := init (Setting.val 0) (Setting.val 1) 2 1

/-- The state left behind by the first evaluate call of the C9 scenario. -/
def s9a : State ℕ :=
  { s9 with
    topic_count := some 2,
    nmf := some 2,
    rich_topics := 1,
    previous_nmf := some 2 }

/-- The state left behind by the second evaluate call of the C9 scenario. -/
def s9b : State ℕ := { s9a with topic_count := some 1, nmf := some 2 }

theorem cumsum_sorted (l : List ℕ) : (cumsum l).Sorted (· ≤ ·) := by
  induction l with
  | nil => simp [cumsum]
  | cons x xs ih =>
      rw [cumsum, List.sorted_cons]
      refine ⟨?_, ?_⟩
      · intro b hb
        rcases List.mem_map.mp hb with ⟨c, _, rfl⟩
        exact Nat.le_add_right x c
      · exact List.Pairwise.map _ (fun a b h => Nat.add_le_add_left h x) ih

theorem countP_eq_length_takeWhile (p : ℕ → Bool)
    (hdc : ∀ a b : ℕ, a ≤ b → p b = true → p a = true) :
    ∀ l : List ℕ, l.Sorted (· ≤ ·) → l.countP p = (l.takeWhile p).length := by
  intro l
  induction l with
  | nil => intro _; rfl
  | cons x xs ih =>
      intro hs
      rcases List.sorted_cons.mp hs with ⟨hx, hxs⟩
      by_cases hpx : p x = true
      · rw [List.countP_cons_of_pos _ _ hpx, List.takeWhile_cons_of_pos hpx,
          List.length_cons, ih hxs]
      · have h0 : xs.countP p = 0 := by
          rw [List.countP_eq_zero]
          intro b hb hpb
          exact hpx (hdc x b (hx b hb) hpb)
        rw [List.countP_cons_of_neg _ _ hpx, List.takeWhile_cons_of_neg hpx, h0]
        rfl

theorem topicsWithRichContent_eq_leading (counts : List ℕ) (rc : Int) :
    topicsWithRichContent counts rc = leadingRichCount counts rc := by
  unfold topicsWithRichContent leadingRichCount
  refine countP_eq_length_takeWhile _ (fun a b hab hb => ?_) _ (cumsum_sorted _)
  simp only [decide_eq_true_eq] at hb ⊢
  exact lt_of_le_of_lt (by exact_mod_cast hab) hb

theorem sortDesc_perm_congr {l l' : List ℕ} (h : l.Perm l') : sortDesc l = sortDesc l' := by
  unfold sortDesc
  congr 1
  have h1 : List.Sorted (· ≤ ·) (l.insertionSort (· ≤ ·)) :=
    List.sorted_insertionSort (· ≤ ·) l
  have h2 : List.Sorted (· ≤ ·) (l'.insertionSort (· ≤ ·)) :=
    List.sorted_insertionSort (· ≤ ·) l'
  refine List.eq_of_perm_of_sorted ?_ h1 h2
  exact (List.perm_insertionSort _ l).trans (h.trans (List.perm_insertionSort _ l').symm)

theorem insertionSort_replicate (d t : ℕ) :
    (List.replicate d t).insertionSort (· ≤ ·) = List.replicate d t := by
  have h := List.perm_insertionSort ((· ≤ ·) : ℕ → ℕ → Prop) (List.replicate d t)
  exact List.perm_replicate.mp h

theorem sortDesc_replicate (d t : ℕ) :
    sortDesc (List.replicate d t) = List.replicate d t := by
  unfold sortDesc
  rw [insertionSort_replicate, List.reverse_replicate]

theorem cumsum_replicate (d t : ℕ) :
    cumsum (List.replicate d t) = (List.range d).map (fun i => (i + 1) * t) := by
  induction d with
  | zero => rfl
  | succ n ih =>
      rw [List.replicate_succ, cumsum, ih, List.range_succ_eq_map]
      simp only [List.map_cons, List.map_map, Function.comp_def]
      congr 1
      · omega
      · have hf : (fun i => t + (i + 1) * t) = (fun (i : ℕ) => (Nat.succ i + 1) * t) := by
          funext i
          simp [Nat.succ_eq_add_one]
          ring
        rw [hf]

theorem topicList_eq_map (start max_steps step : ℕ) (hstep : 1 ≤ step) :
    topicList start max_steps step =
      (List.range max_steps).map (fun i => start + i * step) := by
  have hlen : (max_steps * step + start - start + step - 1) / step = max_steps := by
    have h1 : max_steps * step + start - start + step - 1 =
        step * max_steps + (step - 1) := by
      rw [Nat.mul_comm step max_steps]
      omega
    rw [h1, Nat.mul_add_div (by omega), Nat.div_eq_of_lt (by omega), Nat.add_zero]
  unfold topicList arange
  rw [hlen]

theorem topicList_length (start max_steps step : ℕ) (hstep : 1 ≤ step) :
    (topicList start max_steps step).length = max_steps := by
  rw [topicList_eq_map start max_steps step hstep, List.length_map, List.length_range]

theorem topicList_getD (start max_steps step i : ℕ) (hstep : 1 ≤ step)
    (hi : i < max_steps) :
    (topicList start max_steps step).getD i 0 = start + i * step := by
  rw [topicList_eq_map start max_steps step hstep]
  rw [List.getD_eq_getElem _ _ (by simpa using hi)]
  simp

theorem paretoCorpusContent_none (m : Mat) (p : ℚ) (hm : m.length = 0) :
    paretoCorpusContent m p = none := by
  simp only [paretoCorpusContent]
  rw [if_pos hm]

theorem paretoCorpusContent_some (m : Mat) (p : ℚ) (hm : m.length ≠ 0) :
    paretoCorpusContent m p = some (1 -
      (((cumsum (sortDesc (m.map tokenCount))).countP
        (fun (c : ℕ) => decide ((c : Int) <
          intTrunc (((m.map tokenCount).sum : ℚ) * p))) : ℕ) : ℚ) / (m.length : ℚ)) := by
  simp only [paretoCorpusContent]
  rw [if_neg hm]

theorem paretoCorpusContent_all_zero (m : Mat) (p : ℚ) (h1 : m.length ≠ 0)
    (hz : (m.map tokenCount).sum = 0) :
    paretoCorpusContent m p = some 1 := by
  rw [paretoCorpusContent_some m p h1]
  have hall : ∀ c ∈ m.map tokenCount, c = 0 := List.sum_eq_zero_iff.mp hz
  have hrep : m.map tokenCount = List.replicate m.length 0 :=
    List.eq_replicate_iff.mpr ⟨by rw [List.length_map], hall⟩
  have htr0 : intTrunc ((0 : ℚ) * p) = 0 := by
    unfold intTrunc
    norm_num
  simp only [hrep, sortDesc_replicate, cumsum_replicate, List.sum_replicate,
    smul_eq_mul, Nat.mul_zero, Nat.cast_zero, htr0]
  have hcount : (((List.range m.length).map (fun (_ : ℕ) => (0 : ℕ))).countP
      (fun (c : ℕ) => decide ((c : Int) < 0))) = 0 := by
    rw [List.countP_eq_zero]
    intro c hc
    rcases List.mem_map.mp hc with ⟨i, _, rfl⟩
    simp
  rw [hcount]
  norm_num

theorem evalLoop_nil (oracle : ℕ → α × List ℕ) (rc : Int) (step : ℕ) (s : State α) :
    evalLoop oracle rc step [] s = (Outcome.noneVal, s) := rfl

theorem evalLoop_cons_unstable (oracle : ℕ → α × List ℕ) (rc : Int) (step : ℕ)
    (tc : ℕ) (rest : List ℕ) (s : State α)
    (h : ((topicsWithRichContent (oracle tc).2 rc : ℕ) : Int) ≠ s.rich_topics) :
    evalLoop oracle rc step (tc :: rest) s =
      evalLoop oracle rc step rest
        { s with
          topic_count := some tc,
          nmf := some (oracle tc).1,
          rich_topics := ((topicsWithRichContent (oracle tc).2 rc : ℕ) : Int),
          previous_nmf := some (oracle tc).1 } := by
  have hsc : stoppingCondition (oracle tc).2 rc s.rich_topics =
      (false, ((topicsWithRichContent (oracle tc).2 rc : ℕ) : Int)) := by
    unfold stoppingCondition
    rw [if_neg h]
  simp only [evalLoop, hsc]
  simp

theorem evalLoop_cons_stable_some (oracle : ℕ → α × List ℕ) (rc : Int) (step : ℕ)
    (tc : ℕ) (rest : List ℕ) (s : State α) (p : α)
    (h : ((topicsWithRichContent (oracle tc).2 rc : ℕ) : Int) = s.rich_topics)
    (hp : s.previous_nmf = some p) :
    evalLoop oracle rc step (tc :: rest) s =
      (Outcome.retVal (tc - step),
        { s with topic_count := some (tc - step), nmf := some p }) := by
  have hsc : stoppingCondition (oracle tc).2 rc s.rich_topics =
      (true, s.rich_topics) := by
    unfold stoppingCondition
    rw [if_pos h]
  simp only [evalLoop, hsc, hp]
  simp

theorem evalLoop_cons_stable_none (oracle : ℕ → α × List ℕ) (rc : Int) (step : ℕ)
    (tc : ℕ) (rest : List ℕ) (s : State α)
    (h : ((topicsWithRichContent (oracle tc).2 rc : ℕ) : Int) = s.rich_topics)
    (hp : s.previous_nmf = none) :
    evalLoop oracle rc step (tc :: rest) s =
      (Outcome.attrError,
        { s with topic_count := some (tc - step), nmf := some (oracle tc).1 }) := by
  have hsc : stoppingCondition (oracle tc).2 rc s.rich_topics =
      (true, s.rich_topics) := by
    unfold stoppingCondition
    rw [if_pos h]
  simp only [evalLoop, hsc, hp]
  simp

theorem evaluate_val (oracle : Mat → ℕ → α × List ℕ) (s : State α) (m : Mat)
    (noise : ℚ) (step : ℕ)
    (hn : s.noise_pct = Setting.val noise) (hst : s.step = Setting.val step) :
    evaluate oracle s m =
      evalLoop (oracle m) (richContentOf m noise) step
        (topicList s.start s.max_steps step) s := by
  unfold evaluate resolveNoise resolveStep
  rw [hn, hst]
  simp [settingValue, hn, hst]

theorem twrcAt_cons (oracle : ℕ → α × List ℕ) (rc : Int) (t : ℕ)
    (rest : List ℕ) (k : ℕ) :
    twrcAt oracle rc (t :: rest) (k + 1) = twrcAt oracle rc rest k := rfl

theorem richAfter_shift (oracle : ℕ → α × List ℕ) (rc : Int) (t : ℕ)
    (rest : List ℕ) (i : Int) (k : ℕ) :
    richAfter oracle rc rest (twrcAt oracle rc (t :: rest) 0) k =
      richAfter oracle rc (t :: rest) i (k + 1) := by
  cases k <;> rfl

theorem evalLoop_first_stable (oracle : ℕ → α × List ℕ) (rc : Int) (step : ℕ) :
    ∀ (k : ℕ) (tcs : List ℕ) (s : State α),
      k + 1 < tcs.length →
      (∀ j < k + 1, twrcAt oracle rc tcs j ≠ richAfter oracle rc tcs s.rich_topics j) →
      twrcAt oracle rc tcs (k + 1) = richAfter oracle rc tcs s.rich_topics (k + 1) →
      (evalLoop oracle rc step tcs s).1 = Outcome.retVal (tcs.getD (k + 1) 0 - step)
      ∧ (evalLoop oracle rc step tcs s).2.nmf = some (oracle (tcs.getD k 0)).1 := by
  intro k
  induction k with
  | zero =>
      intro tcs s hlen hnot hstab
      rcases tcs with _ | ⟨t0, tcs'⟩
      · simp at hlen
      rcases tcs' with _ | ⟨t1, rest⟩
      · simp at hlen
      have h0 : twrcAt oracle rc (t0 :: t1 :: rest) 0 ≠
          richAfter oracle rc (t0 :: t1 :: rest) s.rich_topics 0 := hnot 0 (by omega)
      rw [evalLoop_cons_unstable oracle rc step t0 (t1 :: rest) s h0]
      have hstab0 : ((topicsWithRichContent (oracle t1).2 rc : ℕ) : Int) =
          ((topicsWithRichContent (oracle t0).2 rc : ℕ) : Int) := hstab
      rw [evalLoop_cons_stable_some oracle rc step t1 rest _ (oracle t0).1 hstab0 rfl]
      exact ⟨rfl, rfl⟩
  | succ k ih =>
      intro tcs s hlen hnot hstab
      rcases tcs with _ | ⟨t, rest⟩
      · simp at hlen
      have h0 : twrcAt oracle rc (t :: rest) 0 ≠
          richAfter oracle rc (t :: rest) s.rich_topics 0 := hnot 0 (by omega)
      rw [evalLoop_cons_unstable oracle rc step t rest s h0]
      have hlen' : k + 1 < rest.length := by
        simp only [List.length_cons] at hlen
        omega
      have hnot' : ∀ j < k + 1, twrcAt oracle rc rest j ≠
          richAfter oracle rc rest (twrcAt oracle rc (t :: rest) 0) j := by
        intro j hj
        have h := hnot (j + 1) (by omega)
        rw [twrcAt_cons oracle rc t rest j] at h
        rw [← richAfter_shift oracle rc t rest s.rich_topics j] at h
        exact h
      have hstab' : twrcAt oracle rc rest (k + 1) =
          richAfter oracle rc rest (twrcAt oracle rc (t :: rest) 0) (k + 1) := by
        have h := hstab
        rw [twrcAt_cons oracle rc t rest (k + 1)] at h
        rw [← richAfter_shift oracle rc t rest s.rich_topics (k + 1)] at h
        exact h
      exact ih rest _ hlen' hnot' hstab'

/-- Claim C1: for every topic-size distribution, integer rich_content and
integer previous rich-topics baseline, the stability check computes
topics_with_rich_content as the number of leading topics, after sorting
the counts descending, whose running cumulative sum is strictly less
than rich_content; it reports stable iff that number equals the previous
baseline; when not stable the adopted new baseline is exactly
topics_with_rich_content; and the computed number depends only on the
multiset of counts (it is invariant under permutation). -/
theorem c1_stopping_condition (counts : List ℕ) (rich_content rich_topics : Int) :
    topicsWithRichContent counts rich_content = leadingRichCount counts rich_content
    ∧ ((stoppingCondition counts rich_content rich_topics).1 = true ↔
        (leadingRichCount counts rich_content : Int) = rich_topics)
    ∧ ((stoppingCondition counts rich_content rich_topics).1 = false →
        (stoppingCondition counts rich_content rich_topics).2 =
          (leadingRichCount counts rich_content : Int))
    ∧ ∀ counts' : List ℕ, counts'.Perm counts →
        topicsWithRichContent counts' rich_content =
          topicsWithRichContent counts rich_content := by
  have hl := topicsWithRichContent_eq_leading counts rich_content
  refine ⟨hl, ?_, ?_, ?_⟩
  · unfold stoppingCondition
    rw [← hl]
    by_cases h : (topicsWithRichContent counts rich_content : Int) = rich_topics <;>
      simp [h]
  · unfold stoppingCondition
    rw [← hl]
    by_cases h : (topicsWithRichContent counts rich_content : Int) = rich_topics <;>
      simp [h]
  · intro counts' hp
    unfold topicsWithRichContent
    rw [sortDesc_perm_congr hp]

/-- Witness for C1 at the concrete distribution [10, 8, 2] with
rich_content 15 and previous baseline 1, including a permutation
instance. -/
theorem c1_stopping_condition_witness :
    topicsWithRichContent [2, 10, 8] 15 = topicsWithRichContent [10, 8, 2] 15
    ∧ ((stoppingCondition [10, 8, 2] 15 1).1 = true ↔
        (leadingRichCount [10, 8, 2] 15 : Int) = 1) :=
  ⟨(c1_stopping_condition [10, 8, 2] 15 1).2.2.2 [2, 10, 8] (by decide),
    (c1_stopping_condition [10, 8, 2] 15 1).2.1⟩

/-- Claim C8: with a positive resolved step the search loop of evaluate
tries topic counts drawn exactly from the arithmetic progression start,
start + step, start + 2·step, …, and executes at most max_steps
iterations: the topic array is precisely the first max_steps terms of
the progression, one loop iteration per entry (the loop, evalLoop, is
structurally recursive over this list and total, so evaluate terminates
whenever each oracle call does). -/
theorem c8_topic_array (start max_steps step : ℕ) (hstep : 1 ≤ step) :
    topicList start max_steps step =
      (List.range max_steps).map (fun i => start + i * step)
    ∧ (topicList start max_steps step).length = max_steps
    ∧ ∀ tc ∈ topicList start max_steps step, ∃ i < max_steps, tc = start + i * step := by
  refine ⟨topicList_eq_map start max_steps step hstep,
    topicList_length start max_steps step hstep, ?_⟩
  intro tc htc
  rw [topicList_eq_map start max_steps step hstep] at htc
  rcases List.mem_map.mp htc with ⟨i, hi, rfl⟩
  exact ⟨i, List.mem_range.mp hi, rfl⟩

/-- Witness for C8 at start 2, max_steps 3, step 1: the topic array is
[2, 3, 4] and has exactly 3 entries. -/
theorem c8_topic_array_witness :
    topicList 2 3 1 = [2, 3, 4] ∧ (topicList 2 3 1).length = 3 :=
  ⟨((c8_topic_array 2 3 1 (by decide)).1).trans (by decide),
    (c8_topic_array 2 3 1 (by decide)).2.1⟩

/-- Claim C7 counterexample: on the one-document all-zero matrix the
noise estimator returns normally with noise_pct = 1; it raises nothing
at all (and the source defines no InvalidInputError anywhere), refuting
the claim that an InvalidInputError is raised rather than a normal
return. -/
theorem c7_counterexample :
    paretoCorpusContent [[0]] (4 / 5) = some 1
    ∧ paretoCorpusContent [[0]] (4 / 5) ≠ none := by
  have h : paretoCorpusContent [[0]] (4 / 5) = some 1 :=
    paretoCorpusContent_all_zero [[0]] (4 / 5) (by decide) (by decide)
  refine ⟨h, ?_⟩
  rw [h]
  simp

/-- Claim C7 (amended): a matrix with zero documents makes the noise
estimator raise ZeroDivisionError (not InvalidInputError, which does not
exist in the source), and evaluate with the auto sentinel propagates
that error; a matrix with at least one document but zero total term
occurrences instead returns normally with noise fraction 1. -/
theorem c7_amended_zero_input (m : Mat) (p : ℚ) (oracle : Mat → ℕ → α × List ℕ)
    (s : State α) :
    (m.length = 0 → paretoCorpusContent m p = none)
    ∧ (m.length = 0 → s.noise_pct = Setting.auto →
        (evaluate oracle s m).1 = Outcome.zeroDivError)
    ∧ (1 ≤ m.length → (m.map tokenCount).sum = 0 →
        paretoCorpusContent m p = some 1) := by
  refine ⟨fun h0 => paretoCorpusContent_none m p h0, ?_,
    fun h1 hz => paretoCorpusContent_all_zero m p (by omega) hz⟩
  intro h0 hauto
  have hp : paretoCorpusContent m (4 / 5) = none := paretoCorpusContent_none m _ h0
  unfold evaluate resolveNoise
  rw [hauto, hp]
  rfl

/-- Witness for C7 (amended): the zero-document matrix raises
ZeroDivisionError from the estimator, and the two-document all-zero
matrix returns normally with noise fraction 1. -/
theorem c7_amended_zero_input_witness :
    paretoCorpusContent ([] : Mat) (4 / 5) = none
    ∧ paretoCorpusContent [[0], [0]] (1 / 2) = some 1 :=
  ⟨(c7_amended_zero_input ([] : Mat) (4 / 5)
      (fun (_ : Mat) (_ : ℕ) => (PUnit.unit, ([] : List ℕ)))
      (init Setting.auto (Setting.val 1) 2 1)).1 rfl,
    (c7_amended_zero_input [[0], [0]] (1 / 2)
      (fun (_ : Mat) (_ : ℕ) => (PUnit.unit, ([] : List ℕ)))
      (init Setting.auto (Setting.val 1) 2 1)).2.2 (by decide) (by decide)⟩

theorem richContentOf_matOnes (d : ℕ) : richContentOf (matOnes d) 0 = d := by
  unfold matOnes richContentOf intTrunc
  rw [List.length_replicate, if_pos (by positivity)]
  norm_num

theorem richContentOf_matOnes20 : richContentOf (matOnes 20) (1 / 5) = 16 := by
  unfold matOnes richContentOf intTrunc
  rw [List.length_replicate, if_pos (by norm_num)]
  norm_num

/-- Claim C2: with explicit (resolved) configuration, when the stability
check first succeeds at loop iteration k + 1 (0-indexed, so after the
first iteration), evaluate returns the previous topic count tried,
start + k·step = (start + (k+1)·step) − step, and the factorization it
stores in self.nmf for the caller is the cached previous result — the
oracle's factorization at exactly that returned topic count — not the
factorization computed at the topic count where stability was
detected. -/
theorem c2_backoff (oracle : Mat → ℕ → α × List ℕ) (m : Mat) (s : State α)
    (noise : ℚ) (step k : ℕ)
    (hn : s.noise_pct = Setting.val noise) (hst : s.step = Setting.val step)
    (hstep : 1 ≤ step) (hk : k + 2 ≤ s.max_steps)
    (hnot : ∀ j < k + 1,
      twrcAt (oracle m) (richContentOf m noise) (topicList s.start s.max_steps step) j ≠
        richAfter (oracle m) (richContentOf m noise) (topicList s.start s.max_steps step)
          s.rich_topics j)
    (hstab :
      twrcAt (oracle m) (richContentOf m noise) (topicList s.start s.max_steps step)
          (k + 1) =
        richAfter (oracle m) (richContentOf m noise) (topicList s.start s.max_steps step)
          s.rich_topics (k + 1)) :
    (evaluate oracle s m).1 = Outcome.retVal (s.start + k * step)
    ∧ (evaluate oracle s m).2.nmf = some (oracle m (s.start + k * step)).1 := by
  rw [evaluate_val oracle s m noise step hn hst]
  have hlen : k + 1 < (topicList s.start s.max_steps step).length := by
    rw [topicList_length _ _ _ hstep]
    omega
  have h := evalLoop_first_stable (oracle m) (richContentOf m noise) step k
    (topicList s.start s.max_steps step) s hlen hnot hstab
  have hg1 : (topicList s.start s.max_steps step).getD (k + 1) 0 =
      s.start + (k + 1) * step := topicList_getD _ _ _ _ hstep (by omega)
  have hg0 : (topicList s.start s.max_steps step).getD k 0 = s.start + k * step :=
    topicList_getD _ _ _ _ hstep (by omega)
  rw [hg1, hg0] at h
  have harith : s.start + (k + 1) * step - step = s.start + k * step := by
    rw [Nat.succ_mul]
    omega
  rw [harith] at h
  exact h

/-- Witness for C2: with the constant topic-size distribution [3, 4],
rich-content threshold 5 (five documents, noise 0) and step 1 starting at
2, the first iteration is unstable (1 ≠ 0) and the second stable (1 = 1),
so evaluate returns 2 and stores the factorization fitted at 2. -/
theorem c2_backoff_witness :
    (evaluate oracleFixed (init (Setting.val 0) (Setting.val 1) 2 2) (matOnes 5)).1 =
      Outcome.retVal 2
    ∧ (evaluate oracleFixed (init (Setting.val 0) (Setting.val 1) 2 2) (matOnes 5)).2.nmf =
      some (oracleFixed (matOnes 5) 2).1 := by
  have hrc : richContentOf (matOnes 5) 0 = 5 := richContentOf_matOnes 5
  have h := c2_backoff oracleFixed (matOnes 5) (init (Setting.val 0) (Setting.val 1) 2 2)
    0 1 0 rfl rfl (by decide) (by decide)
    (by
      intro j hj
      interval_cases j
      rw [hrc]
      decide)
    (by
      rw [hrc]
      decide)
  simpa using h

/-- Claim C4: with explicit (resolved) configuration and the never
assigned self.previous_nmf (a fresh instance), when the stability check
succeeds already on the very first loop iteration, evaluate raises
AttributeError on reading self.previous_nmf — an explicit failure — and
in particular does not return the starting topic count (or any topic
count) as a result. -/
theorem c4_first_iteration_stable (oracle : Mat → ℕ → α × List ℕ) (m : Mat)
    (s : State α) (noise : ℚ) (step : ℕ)
    (hn : s.noise_pct = Setting.val noise) (hst : s.step = Setting.val step)
    (hstep : 1 ≤ step) (hms : 1 ≤ s.max_steps) (hprev : s.previous_nmf = none)
    (hstab : ((topicsWithRichContent (oracle m s.start).2 (richContentOf m noise) : ℕ) :
        Int) = s.rich_topics) :
    (evaluate oracle s m).1 = Outcome.attrError
    ∧ ∀ tc : ℕ, (evaluate oracle s m).1 ≠ Outcome.retVal tc := by
  rw [evaluate_val oracle s m noise step hn hst]
  have hlen : (topicList s.start s.max_steps step).length = s.max_steps :=
    topicList_length _ _ _ hstep
  rcases hl : topicList s.start s.max_steps step with _ | ⟨t0, tl⟩
  · rw [hl] at hlen
    simp at hlen
    omega
  · have ht0 : t0 = s.start := by
      have hg := topicList_getD s.start s.max_steps step 0 hstep (by omega)
      rw [hl] at hg
      simpa using hg
    subst ht0
    rw [evalLoop_cons_stable_none (oracle m) _ step s.start tl s hstab hprev]
    refine ⟨rfl, ?_⟩
    intro tc
    simp

/-- Witness for C4: three documents with noise 0 give rich-content
threshold 3; the distribution [3, 4] has no cumulative prefix below 3, so
topics_with_rich_content = 0 equals the initial baseline 0 and the first
iteration is already stable; evaluate hits the unassigned
self.previous_nmf. -/
theorem c4_first_iteration_stable_witness :
    (evaluate oracleFixed (init (Setting.val 0) (Setting.val 1) 2 1) (matOnes 3)).1 =
      Outcome.attrError
    ∧ (evaluate oracleFixed (init (Setting.val 0) (Setting.val 1) 2 1) (matOnes 3)).1 ≠
      Outcome.retVal 2 := by
  have hrc : richContentOf (matOnes 3) 0 = 3 := richContentOf_matOnes 3
  have h := c4_first_iteration_stable oracleFixed (matOnes 3)
    (init (Setting.val 0) (Setting.val 1) 2 1) 0 1 rfl rfl (by decide) (by decide) rfl
    (by
      rw [hrc]
      decide)
  exact ⟨h.1, h.2 2⟩

/-- Claim C3 (code bug): on a matrix and oracle whose topic-size
distribution changes every iteration, the stability check never succeeds
within max_steps iterations, and evaluate falls off the end of its loop:
Python returns the implicit None — an absent value — instead of the
explicit inconclusive result the specification mandates.  Here: twenty
documents, noise 1/5 (threshold 16), start 2, step 1, max_steps 3, and a
distribution of tc singleton topics at topic count tc, so
topics_with_rich_content is 2, 3, 4 across the iterations, never equal
to the previous baseline. -/
theorem c3_exhaustion_returns_none :
    (evaluate oracleGrid (init (Setting.val (1 / 5)) (Setting.val 1) 2 3)
      (matOnes 20)).1 = Outcome.noneVal := by
  have hrc : richContentOf (matOnes 20) (1 / 5) = 16 := richContentOf_matOnes20
  have htl : topicList 2 3 1 = [2, 3, 4] := by decide
  rw [evaluate_val oracleGrid _ (matOnes 20) (1 / 5) 1 rfl rfl, hrc]
  rw [show (init (Setting.val (1 / 5)) (Setting.val 1) 2 3 : State ℕ).start = 2 from rfl,
    show (init (Setting.val (1 / 5)) (Setting.val 1) 2 3 : State ℕ).max_steps = 3 from rfl,
    htl]
  rw [evalLoop_cons_unstable _ _ _ _ _ _ (by decide)]
  rw [evalLoop_cons_unstable _ _ _ _ _ _ (by decide)]
  rw [evalLoop_cons_unstable _ _ _ _ _ _ (by decide)]
  rfl

theorem evaluate_s9_first :
    evaluate oracleFixed s9 (matOnes 5) = (Outcome.noneVal, s9a) := by
  rw [evaluate_val oracleFixed s9 (matOnes 5) 0 1 rfl rfl, richContentOf_matOnes 5]
  rw [show s9.start = 2 from rfl, show s9.max_steps = 1 from rfl,
    show topicList 2 1 1 = [2] from by decide]
  rw [evalLoop_cons_unstable _ _ _ _ _ _ (by decide)]
  rfl

theorem evaluate_s9_second :
    evaluate oracleFixed s9a (matOnes 5) = (Outcome.retVal 1, s9b) := by
  rw [evaluate_val oracleFixed s9a (matOnes 5) 0 1 rfl rfl, richContentOf_matOnes 5]
  rw [show s9a.start = 2 from rfl, show s9a.max_steps = 1 from rfl,
    show topicList 2 1 1 = [2] from by decide]
  rw [evalLoop_cons_stable_some _ _ _ _ _ _ 2 (by decide) rfl]
  rfl

/-- Claim C9 counterexample: the search state is not freshly created at
the start of every evaluate call: after one evaluate call on a fresh
instance (explicit noise 0, step 1, start 2, max_steps 1, distribution
always [3, 4], five documents), self.rich_topics is 1 (not 0) and
self.previous_nmf is assigned, and a second evaluate call on the same
instance returns a different outcome than the first call on the fresh
state did — so the second search is not independent of the earlier
call. -/
theorem c9_counterexample :
    (evaluate oracleFixed ((evaluate oracleFixed s9 (matOnes 5)).2) (matOnes 5)).1 ≠
      (evaluate oracleFixed s9 (matOnes 5)).1
    ∧ (evaluate oracleFixed s9 (matOnes 5)).2.rich_topics ≠ 0
    ∧ (evaluate oracleFixed s9 (matOnes 5)).2.previous_nmf ≠ none := by
  simp only [evaluate_s9_first, evaluate_s9_second]
  refine ⟨by simp, by decide, by decide⟩

/-- Claim C9 (amended): rich_topics is initialized to 0 and previous_nmf
left unassigned at construction only (__init__); evaluate never resets
them, so a second evaluate call on the same instance starts from the
rich-topics baseline and cached factorization left behind by the first
call: in the concrete scenario the first call ends inconclusively
leaving rich_topics = 1 and previous_nmf assigned, and the second call
then reports stability immediately and returns a result backed by the
first search's cached factorization. -/
theorem c9_amended_state_reuse :
    (∀ (np : Setting ℚ) (st : Setting ℕ) (a b : ℕ),
      (init (α := ℕ) np st a b).rich_topics = 0
      ∧ (init (α := ℕ) np st a b).previous_nmf = none)
    ∧ (evaluate oracleFixed s9 (matOnes 5)).1 = Outcome.noneVal
    ∧ (evaluate oracleFixed s9 (matOnes 5)).2.rich_topics = 1
    ∧ (evaluate oracleFixed s9 (matOnes 5)).2.previous_nmf = some 2
    ∧ (evaluate oracleFixed ((evaluate oracleFixed s9 (matOnes 5)).2) (matOnes 5)).1 =
        Outcome.retVal 1 := by
  refine ⟨fun np st a b => ⟨rfl, rfl⟩, ?_, ?_, ?_, ?_⟩
  · rw [evaluate_s9_first]
  · rw [evaluate_s9_first]
    rfl
  · rw [evaluate_s9_first]
    rfl
  · simp only [evaluate_s9_first, evaluate_s9_second]

theorem resolveNoise_auto (s : State α) (m : Mat) (v : ℚ)
    (h : s.noise_pct = Setting.auto) (hv : paretoCorpusContent m (4 / 5) = some v) :
    resolveNoise s m = some { s with noise_pct := Setting.val v } := by
  unfold resolveNoise
  rw [h, hv]
  rfl

theorem resolveNoise_val (s : State α) (m : Mat) (v : ℚ)
    (h : s.noise_pct = Setting.val v) :
    resolveNoise s m = some s := by
  unfold resolveNoise
  rw [h]

theorem resolveStep_auto (s : State α) (m : Mat) (w : ℕ)
    (h : s.step = Setting.auto) (hw : determineAutoStepSize m = some w) :
    resolveStep s m = some { s with step := Setting.val w } := by
  unfold resolveStep
  rw [h, hw]
  rfl

theorem resolveStep_val (s : State α) (m : Mat) (w : ℕ)
    (h : s.step = Setting.val w) :
    resolveStep s m = some s := by
  unfold resolveStep
  rw [h]

theorem evaluate_resolved (oracle : Mat → ℕ → α × List ℕ) (s s1 s2 : State α) (m : Mat)
    (h1 : resolveNoise s m = some s1) (h2 : resolveStep s1 m = some s2) :
    evaluate oracle s m =
      evalLoop (oracle m) (richContentOf m (settingValue s2.noise_pct 0))
        (settingValue s2.step 0)
        (topicList s2.start s2.max_steps (settingValue s2.step 0)) s2 := by
  unfold evaluate
  rw [h1]
  dsimp only
  rw [h2]

theorem evalLoop_preserves_config (oracle : ℕ → α × List ℕ) (rc : Int) (step : ℕ) :
    ∀ (tcs : List ℕ) (s : State α),
      (evalLoop oracle rc step tcs s).2.noise_pct = s.noise_pct
      ∧ (evalLoop oracle rc step tcs s).2.step = s.step := by
  intro tcs
  induction tcs with
  | nil => intro s; exact ⟨rfl, rfl⟩
  | cons tc rest ih =>
      intro s
      by_cases h : ((topicsWithRichContent (oracle tc).2 rc : ℕ) : Int) = s.rich_topics
      · rcases hp : s.previous_nmf with _ | p
        · rw [evalLoop_cons_stable_none oracle rc step tc rest s h hp]
          exact ⟨rfl, rfl⟩
        · rw [evalLoop_cons_stable_some oracle rc step tc rest s p h hp]
          exact ⟨rfl, rfl⟩
      · rw [evalLoop_cons_unstable oracle rc step tc rest s h]
        exact ih _

/-- Claim C10: when noise_pct (resp. step) is the auto sentinel, evaluate
overwrites that configuration field on the instance with the numeric
value estimated from the current matrix, so after the call the sentinel
is gone; on any later evaluate call with any matrix the resolution step
is the identity (the estimator is skipped), reusing the value derived
from the first matrix even if the new matrix differs. -/
theorem c10_auto_overwrite (oracle : Mat → ℕ → α × List ℕ) (s : State α)
    (m m' : Mat) (v : ℚ) (w : ℕ) (hm : 1 ≤ m.length) :
    (s.noise_pct = Setting.auto → paretoCorpusContent m (4 / 5) = some v →
      ((evaluate oracle s m).2.noise_pct = Setting.val v
        ∧ resolveNoise ((evaluate oracle s m).2) m' = some ((evaluate oracle s m).2)))
    ∧ (s.step = Setting.auto → determineAutoStepSize m = some w →
      ((evaluate oracle s m).2.step = Setting.val w
        ∧ resolveStep ((evaluate oracle s m).2) m' = some ((evaluate oracle s m).2))) := by
  constructor
  · intro hauto hv
    have hres1 : resolveNoise s m = some { s with noise_pct := Setting.val v } :=
      resolveNoise_auto s m v hauto hv
    rcases hss : s.step with _ | w0
    · obtain ⟨w1, hw1⟩ : ∃ w1, determineAutoStepSize m = some w1 := by
        rcases m with _ | ⟨r, rest⟩
        · simp at hm
        · exact ⟨_, rfl⟩
      have hres2 : resolveStep { s with noise_pct := Setting.val v } m =
          some { { s with noise_pct := Setting.val v } with step := Setting.val w1 } :=
        resolveStep_auto _ m w1 hss hw1
      rw [evaluate_resolved oracle s _ _ m hres1 hres2]
      refine ⟨?_, ?_⟩
      · rw [(evalLoop_preserves_config _ _ _ _ _).1]
      · apply resolveNoise_val _ _ v
        rw [(evalLoop_preserves_config _ _ _ _ _).1]
    · have hres2 : resolveStep { s with noise_pct := Setting.val v } m =
          some { s with noise_pct := Setting.val v } :=
        resolveStep_val _ m w0 hss
      rw [evaluate_resolved oracle s _ _ m hres1 hres2]
      refine ⟨?_, ?_⟩
      · rw [(evalLoop_preserves_config _ _ _ _ _).1]
      · apply resolveNoise_val _ _ v
        rw [(evalLoop_preserves_config _ _ _ _ _).1]
  · intro hsauto hw
    rcases hnn : s.noise_pct with _ | nv
    · obtain ⟨pv, hpv⟩ : ∃ pv, paretoCorpusContent m (4 / 5) = some pv :=
        ⟨_, paretoCorpusContent_some m (4 / 5) (by omega)⟩
      have hres1 : resolveNoise s m = some { s with noise_pct := Setting.val pv } :=
        resolveNoise_auto s m pv hnn hpv
      have hres2 : resolveStep { s with noise_pct := Setting.val pv } m =
          some { { s with noise_pct := Setting.val pv } with step := Setting.val w } :=
        resolveStep_auto _ m w hsauto hw
      rw [evaluate_resolved oracle s _ _ m hres1 hres2]
      refine ⟨?_, ?_⟩
      · rw [(evalLoop_preserves_config _ _ _ _ _).2]
      · apply resolveStep_val _ _ w
        rw [(evalLoop_preserves_config _ _ _ _ _).2]
    · have hres1 : resolveNoise s m = some s := resolveNoise_val s m nv hnn
      have hres2 : resolveStep s m = some { s with step := Setting.val w } :=
        resolveStep_auto s m w hsauto hw
      rw [evaluate_resolved oracle s _ _ m hres1 hres2]
      refine ⟨?_, ?_⟩
      · rw [(evalLoop_preserves_config _ _ _ _ _).2]
      · apply resolveStep_val _ _ w
        rw [(evalLoop_preserves_config _ _ _ _ _).2]

theorem countP_range_facts (q : ℕ → Bool)
    (hdc : ∀ i j : ℕ, i ≤ j → q j = true → q i = true) :
    ∀ d : ℕ, (List.range d).countP q ≤ d
      ∧ (1 ≤ (List.range d).countP q → q ((List.range d).countP q - 1) = true)
      ∧ ((List.range d).countP q < d → q ((List.range d).countP q) = false) := by
  intro d
  induction d with
  | zero =>
      refine ⟨by simp, ?_, ?_⟩
      · intro h
        simp at h
      · intro h
        simp at h
  | succ n ih =>
      by_cases hq : q n = true
      · have hall : ∀ i ∈ List.range (n + 1), q i = true := by
          intro i hi
          exact hdc i n (by simpa [Nat.lt_succ_iff] using hi) hq
        have hcount : (List.range (n + 1)).countP q = n + 1 := by
          have h := List.countP_eq_length.mpr hall
          rw [List.length_range] at h
          exact h
        refine ⟨by rw [hcount], ?_, ?_⟩
        · intro _
          rw [hcount]
          simpa using hq
        · intro h
          rw [hcount] at h
          omega
      · have hcount : (List.range (n + 1)).countP q = (List.range n).countP q := by
          rw [List.range_succ, List.countP_append]
          simp [hq]
        rcases ih with ⟨ih1, ih2, ih3⟩
        refine ⟨by rw [hcount]; omega, ?_, ?_⟩
        · intro h
          rw [hcount] at h ⊢
          exact ih2 h
        · intro h
          rw [hcount]
          by_cases hlt : (List.range n).countP q < n
          · exact ih3 hlt
          · have hn : (List.range n).countP q = n := by omega
            rw [hn]
            simpa using hq

/-- Claim C6: for every matrix with at least one document and at least one
nonzero entry (all entries nonnegative, as the data model requires), and
every fraction n_percent, the noise estimator returns
1 − majority_docs / total_documents where majority_docs is the number of
leading documents, after sorting the per-document nonzero-term counts
descending, whose cumulative token count is strictly less than the floor
of total_tokens · n_percent; and when every document has the same
nonzero-term count the result is approximately 1 − n_percent: it lies in
the band [1 − n_percent, 1 − n_percent + 2 / total_documents]. -/
theorem c6_noise_estimator (m : Mat) (p : ℚ)
    (hd : 1 ≤ m.length)
    (hnn : ∀ r ∈ m, ∀ x ∈ r, 0 ≤ x)
    (hnz : ∃ r ∈ m, ∃ x ∈ r, x ≠ 0)
    (hp0 : 0 ≤ p) (hp1 : p ≤ 1) :
    paretoCorpusContent m p =
      some (1 - (specMajorityDocs m p : ℚ) / (m.length : ℚ))
    ∧ ∀ t : ℕ, (∀ r ∈ m, tokenCount r = t) →
        1 - p ≤ 1 - (specMajorityDocs m p : ℚ) / (m.length : ℚ)
        ∧ 1 - (specMajorityDocs m p : ℚ) / (m.length : ℚ) ≤
          1 - p + 2 / (m.length : ℚ) := by
  have hcounts : m.map (fun row => row.countP (fun (x : ℚ) => decide (x ≠ 0))) =
      m.map tokenCount := by
    apply List.map_congr_left
    intro r hr
    unfold tokenCount
    apply List.countP_congr
    intro x hx
    have hx0 : 0 ≤ x := hnn r hr x hx
    rcases eq_or_lt_of_le hx0 with heq | hlt
    · rw [← heq]
      simp
    · have h1 : decide (x ≠ 0) = true := by
        simp [Ne.symm (ne_of_lt hlt)]
      have h2 : decide ((0 : ℚ) < x) = true := by
        simp [hlt]
      rw [h1, h2]
  have hflo : ⌊(((m.map tokenCount).sum : ℕ) : ℚ) * p⌋ =
      intTrunc ((((m.map tokenCount).sum : ℕ) : ℚ) * p) := by
    unfold intTrunc
    rw [if_pos (mul_nonneg (Nat.cast_nonneg _) hp0)]
  have hspec : specMajorityDocs m p =
      (cumsum (sortDesc (m.map tokenCount))).countP
        (fun (c : ℕ) => decide ((c : Int) <
          intTrunc ((((m.map tokenCount).sum : ℕ) : ℚ) * p))) := by
    simp only [specMajorityDocs, hcounts, hflo]
    exact (countP_eq_length_takeWhile _ (fun a b hab hb => by
      simp only [decide_eq_true_eq] at hb ⊢
      exact lt_of_le_of_lt (by exact_mod_cast hab) hb) _ (cumsum_sorted _)).symm
  constructor
  · rw [paretoCorpusContent_some m p (by omega), hspec]
  · intro t hu
    have hd0 : (0 : ℚ) < (m.length : ℚ) := by
      have h : 0 < m.length := by omega
      exact_mod_cast h
    obtain ⟨r0, hr0, x0, hx0, hx0ne⟩ := hnz
    have ht1 : 1 ≤ t := by
      have hpos : 0 < tokenCount r0 := by
        rw [tokenCount, List.countP_pos_iff]
        exact ⟨x0, hx0, by
          simp [lt_of_le_of_ne (hnn r0 hr0 x0 hx0) (Ne.symm hx0ne)]⟩
      rw [hu r0 hr0] at hpos
      omega
    have hrep : m.map tokenCount = List.replicate m.length t :=
      List.eq_replicate_iff.mpr ⟨by rw [List.length_map], by
        intro b hb
        rcases List.mem_map.mp hb with ⟨r, hr, rfl⟩
        exact hu r hr⟩
    have hsum : (m.map tokenCount).sum = m.length * t := by
      rw [hrep, List.sum_replicate, smul_eq_mul]
    have hk : specMajorityDocs m p =
        (List.range m.length).countP
          (fun i => decide ((((i + 1) * t : ℕ) : Int) <
            intTrunc (((m.length * t : ℕ) : ℚ) * p))) := by
      rw [hspec]
      simp only [hrep, sortDesc_replicate, cumsum_replicate, List.sum_replicate,
        smul_eq_mul]
      rw [List.countP_map]
      simp only [Function.comp_def]
    have hfacts := countP_range_facts
      (fun i => decide ((((i + 1) * t : ℕ) : Int) <
        intTrunc (((m.length * t : ℕ) : ℚ) * p)))
      (fun i j hij hqj => by
        simp only [decide_eq_true_eq] at hqj ⊢
        refine lt_of_le_of_lt ?_ hqj
        exact_mod_cast Nat.mul_le_mul_right t (by omega))
      m.length
    obtain ⟨kk, hkeq⟩ : ∃ kk, (List.range m.length).countP
        (fun i => decide ((((i + 1) * t : ℕ) : Int) <
          intTrunc (((m.length * t : ℕ) : ℚ) * p))) = kk := ⟨_, rfl⟩
    rw [hkeq] at hfacts
    rw [hk, hkeq]
    obtain ⟨hk_le, hk_lt, hk_ge⟩ := hfacts
    have hnn2 : (0 : ℚ) ≤ ((m.length * t : ℕ) : ℚ) * p :=
      mul_nonneg (Nat.cast_nonneg _) hp0
    have hMfl : intTrunc (((m.length * t : ℕ) : ℚ) * p) =
        ⌊((m.length * t : ℕ) : ℚ) * p⌋ := by
      unfold intTrunc
      rw [if_pos hnn2]
    have hub : ((intTrunc (((m.length * t : ℕ) : ℚ) * p) : Int) : ℚ) ≤
        ((m.length * t : ℕ) : ℚ) * p := by
      rw [hMfl]
      exact Int.floor_le _
    have hlb : ((m.length * t : ℕ) : ℚ) <
        ((m.length * t : ℕ) : ℚ) + 1 := by linarith
    have hlb2 : ((m.length * t : ℕ) : ℚ) * p <
        ((intTrunc (((m.length * t : ℕ) : ℚ) * p) : Int) : ℚ) + 1 := by
      rw [hMfl]
      exact Int.lt_floor_add_one _
    have ht0 : (0 : ℚ) < (t : ℚ) := by
      have h : 0 < t := by omega
      exact_mod_cast h
    have ht1q : (1 : ℚ) ≤ (t : ℚ) := by exact_mod_cast ht1
    constructor
    · have hkd : (kk : ℚ) / (m.length : ℚ) ≤ p := by
        rw [div_le_iff₀ hd0]
        rcases Nat.eq_zero_or_pos kk with hk0 | hk1
        · rw [hk0]
          simpa using mul_nonneg hp0 (le_of_lt hd0)
        · have hq := hk_lt hk1
          simp only [decide_eq_true_eq] at hq
          have hk' : kk - 1 + 1 = kk := by omega
          rw [hk'] at hq
          have hq' : ((kk * t : ℕ) : ℚ) < ((m.length * t : ℕ) : ℚ) * p := by
            calc ((kk * t : ℕ) : ℚ) <
                ((intTrunc (((m.length * t : ℕ) : ℚ) * p) : Int) : ℚ) := by
                  exact_mod_cast hq
              _ ≤ _ := hub
          push_cast at hq'
          nlinarith [hq', ht0]
      linarith
    · have hkd2 : p * (m.length : ℚ) - 2 ≤ (kk : ℚ) := by
        rcases lt_or_ge kk m.length with hlt | hge
        · have hq := hk_ge hlt
          simp only [decide_eq_false_iff_not, not_lt] at hq
          have hq' : ((m.length * t : ℕ) : ℚ) * p < (((kk + 1) * t : ℕ) : ℚ) + 1 := by
            calc ((m.length * t : ℕ) : ℚ) * p <
                ((intTrunc (((m.length * t : ℕ) : ℚ) * p) : Int) : ℚ) + 1 := hlb2
              _ ≤ (((kk + 1) * t : ℕ) : ℚ) + 1 := by
                  have hc : ((intTrunc (((m.length * t : ℕ) : ℚ) * p) : Int) : ℚ) ≤
                      (((kk + 1) * t : ℕ) : ℚ) := by exact_mod_cast hq
                  linarith
          push_cast at hq'
          nlinarith [hq', ht0, ht1q]
        · have hc : (m.length : ℚ) ≤ (kk : ℚ) := by exact_mod_cast hge
          nlinarith [hp1, hd0, hc]
      have h2 : p - 2 / (m.length : ℚ) ≤ (kk : ℚ) / (m.length : ℚ) := by
        rw [le_div_iff₀ hd0]
        have hexp : (p - 2 / (m.length : ℚ)) * (m.length : ℚ) =
            p * (m.length : ℚ) - 2 := by
          field_simp
        rw [hexp]
        exact hkd2
      linarith

/-- Witness for C6 on the two-document matrix [[1], [1]] with n_percent
1/2: both the exact formula and the uniform-count band, instantiated at
the common token count 1. -/
theorem c6_noise_estimator_witness :
    paretoCorpusContent [[(1 : ℚ)], [(1 : ℚ)]] (1 / 2) =
      some (1 - (specMajorityDocs [[(1 : ℚ)], [(1 : ℚ)]] (1 / 2) : ℚ) /
        ((([[(1 : ℚ)], [(1 : ℚ)]] : Mat).length : ℕ) : ℚ))
    ∧ (1 - (1 / 2 : ℚ) ≤ 1 - (specMajorityDocs [[(1 : ℚ)], [(1 : ℚ)]] (1 / 2) : ℚ) /
        ((([[(1 : ℚ)], [(1 : ℚ)]] : Mat).length : ℕ) : ℚ)
      ∧ 1 - (specMajorityDocs [[(1 : ℚ)], [(1 : ℚ)]] (1 / 2) : ℚ) /
        ((([[(1 : ℚ)], [(1 : ℚ)]] : Mat).length : ℕ) : ℚ) ≤
        1 - 1 / 2 + 2 / ((([[(1 : ℚ)], [(1 : ℚ)]] : Mat).length : ℕ) : ℚ)) := by
  have h := c6_noise_estimator [[(1 : ℚ)], [(1 : ℚ)]] (1 / 2) (by decide)
    (by decide) (by decide) (by norm_num) (by norm_num)
  exact ⟨h.1, h.2 1 (by decide)⟩

theorem pareto_ones1 : paretoCorpusContent [[(1 : ℚ)]] (4 / 5) = some 1 := by
  rw [paretoCorpusContent_some _ _ (by decide)]
  have hmap : List.map tokenCount [[(1 : ℚ)]] = [1] := by decide
  simp only [hmap]
  have htr : intTrunc ((([1] : List ℕ).sum : ℚ) * (4 / 5)) = 0 := by
    unfold intTrunc
    rw [if_pos (by norm_num)]
    norm_num
  simp only [htr]
  have hc : (cumsum (sortDesc [1])).countP
      (fun (c : ℕ) => decide ((c : Int) < 0)) = 0 := by decide
  rw [hc]
  norm_num

theorem autoStep_ones1 : determineAutoStepSize [[(1 : ℚ)]] = some 1 := by
  simp only [determineAutoStepSize]
  norm_num

/-- Witness for C10: on the one-document one-term matrix with both
sentinels set, evaluate stores noise fraction 1 and step 1 on the
instance, and both resolution steps are then the identity even against
the empty matrix. -/
theorem c10_auto_overwrite_witness :
    ((evaluate oracleFixed (init Setting.auto Setting.auto 2 1) [[(1 : ℚ)]]).2.noise_pct =
        Setting.val 1
      ∧ resolveNoise ((evaluate oracleFixed (init Setting.auto Setting.auto 2 1)
          [[(1 : ℚ)]]).2) ([] : Mat) =
        some ((evaluate oracleFixed (init Setting.auto Setting.auto 2 1) [[(1 : ℚ)]]).2))
    ∧ ((evaluate oracleFixed (init Setting.auto Setting.auto 2 1) [[(1 : ℚ)]]).2.step =
        Setting.val 1
      ∧ resolveStep ((evaluate oracleFixed (init Setting.auto Setting.auto 2 1)
          [[(1 : ℚ)]]).2) ([] : Mat) =
        some ((evaluate oracleFixed (init Setting.auto Setting.auto 2 1) [[(1 : ℚ)]]).2)) := by
  have h := c10_auto_overwrite oracleFixed (init Setting.auto Setting.auto 2 1)
    [[(1 : ℚ)]] ([] : Mat) 1 1 (by decide)
  exact ⟨h.1 rfl pareto_ones1, h.2 rfl autoStep_ones1⟩

/-- Claim C5 counterexample: on the distribution [10, 8, 2] with
rich_content 15 the cumulative sums are 10, 18, 20 and only the first is
strictly below 15, so the code computes topics_with_rich_content = 1
(not 2 as the claim states) and, against a previous baseline of 2,
reports not stable (not stable as the claim states). -/
theorem c5_counterexample :
    topicsWithRichContent [10, 8, 2] 15 = 1
    ∧ (stoppingCondition [10, 8, 2] 15 2).1 = false := by decide

/-- Claim C5 (amended): on the distribution [10, 8, 2] with rich_content
15 the stability check computes topics_with_rich_content = 1, reports
not stable against a previous baseline of 2 (adopting 1 as the new
baseline), and reports stable exactly against a previous baseline of 1. -/
theorem c5_amended_stopping :
    stoppingCondition [10, 8, 2] 15 2 = (false, 1)
    ∧ stoppingCondition [10, 8, 2] 15 1 = (true, 1) := by decide

end ParetoNMF
